import Mathlib

/-!
Shallow embedding of the SLEAP repository excerpt
(`sleap/io/video.py`, `sleap/gui/formbuilder.py`, `sleap/nn/augmentation.py`)
and verification of the frozen specification claims.

Numpy arrays are modelled as dimension tuples together with a total valuation
function on indices; pixel values are rationals (numpy floats and ints both map
into ℚ).  Filesystem paths are lists of characters; the filesystem itself is an
abstract predicate or lookup function supplied as a parameter.  Fallible Python
code (raising exceptions) is modelled with `Option` / `Except`.
-/

namespace Sleap

/-- Python-level exceptions raised by the video module. -/
inductive PyErr where
  | fileNotFound
  | valueError
  | keyError
  | typeError
deriving DecidableEq, Repr

/-! ### Numpy array model -/

/-- A 3-dimensional numpy array: dimensions and a valuation on indices. -/
structure Arr3 where
  d0 : Nat
  d1 : Nat
  d2 : Nat
  val : Nat → Nat → Nat → ℚ

/-- A 4-dimensional numpy array: dimensions and a valuation on indices. -/
structure Arr4 where
  d0 : Nat
  d1 : Nat
  d2 : Nat
  d3 : Nat
  val : Nat → Nat → Nat → Nat → ℚ

/-- `a.shape[i]` of a 4-d array. -/
def Arr4.shape (a : Arr4) (i : Nat) : Nat :=
  [a.d0, a.d1, a.d2, a.d3].getD i 0

/-- Indexing a 4-d array by its first axis (`a[idx]` in numpy). -/
def Arr4.slice0 (a : Arr4) (idx : Nat) : Arr3 :=
  ⟨a.d1, a.d2, a.d3, fun i j k => a.val idx i j k⟩

/-- `np.transpose(frame, (2, 1, 0))`. -/
def Arr3.transpose210 (a : Arr3) : Arr3 :=
  ⟨a.d2, a.d1, a.d0, fun i j k => a.val k j i⟩

/-- Elementwise map over a 3-d array. -/
def Arr3.map (f : ℚ → ℚ) (a : Arr3) : Arr3 :=
  ⟨a.d0, a.d1, a.d2, fun i j k => f (a.val i j k)⟩

/-- All in-range entries of a 3-d array, flattened (row-major). -/
def Arr3.vals (a : Arr3) : List ℚ :=
  (List.range a.d0).flatMap fun i =>
    (List.range a.d1).flatMap fun j =>
      (List.range a.d2).map fun k => a.val i j k

/-- `numpy.ndarray.astype(int)`: truncation toward zero of a rational value. -/
def truncInt (q : ℚ) : Int :=
  if 0 ≤ q then ⌊q⌋ else ⌈q⌉

/-! ### `HDF5Video` backend (`sleap/io/video.py`) -/

/-- The string constant `"channels_first"`. -/
def channelsFirst : List Char := "channels_first".toList

/-- The string constant `"channels_last"`. -/
def channelsLast : List Char := "channels_last".toList

/-- A successfully constructed `HDF5Video` backend: the open dataset plus
the constructor arguments that steer frame fetches.  (The `input_format`
validator guarantees the stored format is one of the two legal strings.) -/
structure HDF5Video where
  dataset_h5 : Arr4
  input_format : List Char
  convert_range : Bool

namespace HDF5Video

/-- `__channel_idx` as assigned by the `input_format` validator. -/
def channel_idx (v : HDF5Video) : Nat :=
  if v.input_format = channelsFirst then 1 else 3

/-- `__width_idx` as assigned by the `input_format` validator. -/
def width_idx (_ : HDF5Video) : Nat := 2

/-- `__height_idx` as assigned by the `input_format` validator. -/
def height_idx (v : HDF5Video) : Nat :=
  if v.input_format = channelsFirst then 3 else 1

def frames (v : HDF5Video) : Nat := v.dataset_h5.shape 0

def channels (v : HDF5Video) : Nat := v.dataset_h5.shape v.channel_idx

def width (v : HDF5Video) : Nat := v.dataset_h5.shape v.width_idx

def height (v : HDF5Video) : Nat := v.dataset_h5.shape v.height_idx

/-- The frame as fetched and re-oriented, before optional range conversion:
`frame = self.__dataset_h5[idx]`, transposed `(2,1,0)` for channels-first. -/
def raw_frame (v : HDF5Video) (idx : Nat) : Arr3 :=
  let frame := v.dataset_h5.slice0 idx
  if v.input_format = channelsFirst then frame.transpose210 else frame

/-- `HDF5Video.get_frame`: fetch, re-orient, and optionally rescale to
the 0–255 range.  `np.max` of an empty array raises, hence `Option`. -/
def get_frame (v : HDF5Video) (idx : Nat) : Option Arr3 :=
  let frame := v.raw_frame idx
  if v.convert_range then
    match frame.vals.max? with
    | none => none
    | some m =>
        if m ≤ 1 then
          some (frame.map fun q => ((truncInt (q * 255) : Int) : ℚ))
        else some frame
  else some frame

end HDF5Video

/-! ### `MediaVideo` backend -/

/-- A successfully constructed `MediaVideo` backend.  The OpenCV capture is
modelled as a 4-d array (`data`): a media container decodes to a fixed
height × width × channel layout per frame, axes `(frame, row, col, channel)`. -/
structure MediaVideo where
  data : Arr4
  grayscale : Bool
  bgr : Bool

namespace MediaVideo

/-- `MediaVideo.get_frame(idx, grayscale=g)` with the grayscale flag made
explicit: read the frame, slice channel 0 (keeping a singleton axis) for
grayscale, and reverse the channel axis when `bgr` is set. -/
def get_frame_g (m : MediaVideo) (idx : Nat) (g : Bool) : Arr3 :=
  let frame := m.data.slice0 idx
  let frame : Arr3 :=
    if g then ⟨frame.d0, frame.d1, 1, fun i j _ => frame.val i j 0⟩ else frame
  if m.bgr then
    ⟨frame.d0, frame.d1, frame.d2, fun i j k => frame.val i j (frame.d2 - 1 - k)⟩
  else frame

/-- `self.__test_frame = self.get_frame(0, grayscale=False)`. -/
def test_frame (m : MediaVideo) : Arr3 := m.get_frame_g 0 false

/-- `MediaVideo.get_frame(idx)` (grayscale defaulting to the instance flag). -/
def get_frame (m : MediaVideo) (idx : Nat) : Arr3 := m.get_frame_g idx m.grayscale

def frames (m : MediaVideo) : Nat := m.data.d0

def channels (m : MediaVideo) : Nat :=
  if m.grayscale then 1 else m.test_frame.d2

def width (m : MediaVideo) : Nat := m.test_frame.d1

def height (m : MediaVideo) : Nat := m.test_frame.d0

end MediaVideo

/-! ### `NumpyVideo` backend -/

/-- A successfully constructed `NumpyVideo` backend wrapping the loaded
array; per the class docstring the axes are (frames, width, height, channels). -/
structure NumpyVideo where
  data : Arr4

namespace NumpyVideo

/-- `__frame_idx = 0`. -/
def frame_idx (_ : NumpyVideo) : Nat := 0

/-- `__width_idx = 1`. -/
def width_idx (_ : NumpyVideo) : Nat := 1

/-- `__height_idx = 2`. -/
def height_idx (_ : NumpyVideo) : Nat := 2

/-- `__channel_idx = 3`. -/
def channel_idx (_ : NumpyVideo) : Nat := 3

def frames (n : NumpyVideo) : Nat := n.data.shape n.frame_idx

def channels (n : NumpyVideo) : Nat := n.data.shape n.channel_idx

def width (n : NumpyVideo) : Nat := n.data.shape n.width_idx

def height (n : NumpyVideo) : Nat := n.data.shape n.height_idx

/-- `NumpyVideo.get_frame(idx) = self.__data[idx]`. -/
def get_frame (n : NumpyVideo) (idx : Nat) : Arr3 := n.data.slice0 idx

end NumpyVideo

/-! ### `ImgStoreVideo` backend -/

/-- A successfully opened `ImgStoreVideo` backend.  An imgstore holds
uniformly shaped images (the shape is part of the store metadata): either
2-d grayscale images (`gray2d`) of shape `(h, w)` or 3-d images `(h, w, c)`.
`byNumber` maps an original frame number to the store index holding it
(`get_image(frame_number)`); `val` is indexed by store index. -/
structure ImgStoreVideo where
  frame_count : Nat
  gray2d : Bool
  h : Nat
  w : Nat
  c : Nat
  val : Nat → Nat → Nat → Nat → ℚ
  index_by_original : Bool
  byNumber : Nat → Nat

namespace ImgStoreVideo

def frames (s : ImgStoreVideo) : Nat := s.frame_count

/-- `channels`: 1 when the stored image has fewer than 3 axes. -/
def channels (s : ImgStoreVideo) : Nat := if s.gray2d then 1 else s.c

def width (s : ImgStoreVideo) : Nat := s.w

def height (s : ImgStoreVideo) : Nat := s.h

/-- `ImgStoreVideo.get_frame`: fetch by original frame number or store index,
adding a singleton channel axis for 2-d images. -/
def get_frame (s : ImgStoreVideo) (frame_number : Nat) : Arr3 :=
  let i := if s.index_by_original then s.byNumber frame_number else frame_number
  if s.gray2d then ⟨s.h, s.w, 1, fun a b _ => s.val i a b 0⟩
  else ⟨s.h, s.w, s.c, fun a b k => s.val i a b k⟩

end ImgStoreVideo

/-! ### The `Video` facade -/

/-- `Video.backend`: the union of the four backend variants. -/
inductive VideoBackend where
  | hdf5 (v : HDF5Video)
  | media (m : MediaVideo)
  | numpy (n : NumpyVideo)
  | imgstore (s : ImgStoreVideo)

namespace VideoBackend

def frames : VideoBackend → Nat
  | .hdf5 v => v.frames
  | .media m => m.frames
  | .numpy n => n.frames
  | .imgstore s => s.frames

def channels : VideoBackend → Nat
  | .hdf5 v => v.channels
  | .media m => m.channels
  | .numpy n => n.channels
  | .imgstore s => s.channels

def width : VideoBackend → Nat
  | .hdf5 v => v.width
  | .media m => m.width
  | .numpy n => n.width
  | .imgstore s => s.width

def height : VideoBackend → Nat
  | .hdf5 v => v.height
  | .media m => m.height
  | .numpy n => n.height
  | .imgstore s => s.height

/-- `Video.get_frame` delegates to the backend (HDF5 fetches can raise). -/
def get_frame : VideoBackend → Nat → Option Arr3
  | .hdf5 v, idx => v.get_frame idx
  | .media m, idx => some (m.get_frame idx)
  | .numpy n, idx => some (n.get_frame idx)
  | .imgstore s, idx => some (s.get_frame idx)

end VideoBackend

/-- `Video.shape = (self.frames, self.height, self.width, self.channels)`. -/
def Video.shape (b : VideoBackend) : Nat × Nat × Nat × Nat :=
  (b.frames, b.height, b.width, b.channels)

/-! ### POSIX path model (`os.path` on Linux)

Paths are lists of characters.  The filesystem is abstract: predicates for
`os.path.exists` / `os.path.isfile` / `os.path.isdir` are parameters. -/

/-- The string constant `"metadata.yaml"`. -/
def mlChars : List Char := "metadata.yaml".toList

/-- Split a character list at every occurrence of `sep` (Python
`str.split(sep)`): the result is always nonempty, and splitting the empty
string yields `[[]]`. -/
def splitOnChar (sep : Char) : List Char → List (List Char)
  | [] => [[]]
  | c :: rest =>
    if c = sep then [] :: splitOnChar sep rest
    else List.modifyHead (fun s => c :: s) (splitOnChar sep rest)

/-- `path.split(sep='/')`. -/
def splitSlash (p : List Char) : List (List Char) := splitOnChar '/' p

/-- `'/'.join(components)`. -/
def joinSlash : List (List Char) → List Char
  | [] => []
  | [c] => c
  | c :: rest => c ++ '/' :: joinSlash rest

/-- `os.path.isabs`. -/
def isAbs (p : List Char) : Bool := p.head? = some '/'

/-- The tail of `os.path.split(path)`: everything after the final slash. -/
def splitTail (p : List Char) : List Char :=
  (p.reverse.takeWhile (fun c => c ≠ '/')).reverse

/-- Strip trailing slashes (`head.rstrip('/')`). -/
def rstripSlash (p : List Char) : List Char :=
  (p.reverse.dropWhile (fun c => c = '/')).reverse

/-- The head of `os.path.split(path)`: up to and including the final slash,
then stripped of trailing slashes unless it consists only of slashes. -/
def splitHead (p : List Char) : List Char :=
  let headRaw := (p.reverse.dropWhile (fun c => c ≠ '/')).reverse
  if headRaw ≠ [] ∧ ¬ headRaw.all (fun c => c = '/') then rstripSlash headRaw
  else headRaw

/-- `os.path.split`. -/
def osSplit (p : List Char) : List Char × List Char := (splitHead p, splitTail p)

/-- `os.path.basename`. -/
def basename (p : List Char) : List Char := splitTail p

/-- `os.path.join(a, b)` for a single relative or absolute part `b`. -/
def pathJoin (a b : List Char) : List Char :=
  if isAbs b then b
  else if a = [] ∨ a.getLast? = some '/' then a ++ b
  else a ++ '/' :: b

/-- One step of `posixpath.normpath` component processing: skip empty and
`'.'` components; append a component unless it is `'..'` that cancels a
previous real component. -/
def normStep (slashed : Bool) (acc : List (List Char)) (comp : List Char) :
    List (List Char) :=
  if comp = [] ∨ comp = ['.'] then acc
  else if comp ≠ ['.', '.'] ∨ (¬ slashed ∧ acc = []) ∨
      acc.getLast? = some ['.', '.'] then acc ++ [comp]
  else acc.dropLast

/-- `posixpath.normpath`. -/
def normpath (p : List Char) : List Char :=
  if p = [] then ['.']
  else
    let slashes : Nat :=
      if isAbs p then
        if p.take 2 = ['/', '/'] ∧ p.take 3 ≠ ['/', '/', '/'] then 2 else 1
      else 0
    let comps := (splitSlash p).foldl (normStep (0 < slashes)) []
    let res := List.replicate slashes '/' ++ joinSlash comps
    if res = [] then ['.'] else res

/-- `os.path.abspath` relative to a current working directory `cwd`. -/
def abspath (cwd p : List Char) : List Char :=
  if isAbs p then normpath p else normpath (pathJoin cwd p)

/-- `'metadata.yaml' in filename` (substring containment). -/
def containsML (p : List Char) : Bool := decide (mlChars <:+: p)

/-! ### `Video.fixup_path` -/

/-- `Video.fixup_path` on a string argument.  `fs` is `os.path.exists`;
`none` models the `FileNotFoundError` raised when no strategy applies. -/
def fixup_path_str (fs : List Char → Bool) (path : List Char) :
    Option (List Char) :=
  if fs path then some path
  else if fs (basename path) then some (basename path)
  else if mlChars.isSuffixOf path then
    let img_store_dir := basename (osSplit path).1
    if fs img_store_dir then some img_store_dir else none
  else none

/-- Possible arguments of `Video.fixup_path`: strings or non-string values
(`None`, `h5py.File` handles, numpy arrays). -/
inductive PathArg where
  | str (s : List Char)
  | pyNone
  | h5file (id : Nat)
  | ndarray (a : Arr4)

/-- `Video.fixup_path`: non-strings pass through untouched; strings go
through the three resolution strategies. -/
def fixup_path (fs : List Char → Bool) : PathArg → Option PathArg
  | .str s => (fixup_path_str fs s).map .str
  | v => some v

/-! ### `Video.from_filename` dispatch -/

/-- The backend class chosen by `Video.from_filename`. -/
inductive BackendTag where
  | hdf5
  | numpy
  | media
  | imgstore
deriving DecidableEq, Repr

/-- `str.lower()` (ASCII case folding). -/
def lowerStr (p : List Char) : List Char := p.map Char.toLower

/-- `Video.from_filename` backend dispatch: fix up the path, then select the
backend class from the (fixed-up) filename.  `fs` is `os.path.exists` and
`isdir` is `os.path.isdir`. -/
def from_filename (fs isdir : List Char → Bool) (path : List Char) :
    Except PyErr BackendTag :=
  match fixup_path_str fs path with
  | none => .error .fileNotFound
  | some filename =>
    if ("h5".toList.isSuffixOf (lowerStr filename) ∨
        "hdf5".toList.isSuffixOf (lowerStr filename)) then .ok .hdf5
    else if "npy".toList.isSuffixOf filename then .ok .numpy
    else if ("mp4".toList.isSuffixOf (lowerStr filename) ∨
        "avi".toList.isSuffixOf (lowerStr filename)) then .ok .media
    else if isdir filename ∨ containsML filename then .ok .imgstore
    else .error .valueError

/-! ### `ImgStoreVideo.__attrs_post_init__` filename handling -/

/-- The filename stored by `ImgStoreVideo.__attrs_post_init__` before the
store is opened: append `metadata.yaml` when the given name does not contain
it, then make the path absolute. -/
def imgstore_post_init_filename (cwd filename : List Char) : List Char :=
  let f := if ¬ containsML filename then pathJoin filename mlChars else filename
  abspath cwd f

/-! ### Backend construction (`__attrs_post_init__` / validators)

attrs runs field validators during `__init__`, before `__attrs_post_init__`,
so the `input_format` check fires before any file access. -/

/-- An HDF5 file: its datasets, looked up by name. -/
structure H5FileModel where
  dsets : List (List Char × Arr4)

/-- The `filename` argument of `HDF5Video`: an `h5py.File`, a string, or
anything else. -/
inductive H5FilenameArg where
  | h5file (f : H5FileModel)
  | str (s : List Char)
  | other

/-- The `dataset` argument of `HDF5Video`: an `h5py.Dataset`, a string, or
`None`. -/
inductive H5DatasetArg where
  | h5dset (d : Arr4)
  | str (s : List Char)
  | noneArg

/-- `HDF5Video.__init__` (validator + `__attrs_post_init__`).  `fsys` models
opening an HDF5 file for reading: `none` means `h5py.File` raises `OSError`,
which the constructor re-raises as `FileNotFoundError`.  On success the state
is the resolved dataset (if any) plus the stored options. -/
def hdf5_video_init (fsys : List Char → Option H5FileModel)
    (filename : H5FilenameArg) (dataset : H5DatasetArg)
    (input_format : List Char) (convert_range : Bool) :
    Except PyErr (Option Arr4 × List Char × Bool) :=
  if input_format = channelsFirst ∨ input_format = channelsLast then
    let fileRes : Except PyErr (Option H5FileModel) :=
      match filename with
      | .h5file f => .ok (some f)
      | .str s =>
        match fsys s with
        | some f => .ok (some f)
        | none => .error .fileNotFound
      | .other => .ok none
    match fileRes with
    | .error e => .error e
    | .ok fileOpt =>
      match dataset with
      | .h5dset d => .ok (some d, input_format, convert_range)
      | .str ds =>
        match fileOpt with
        | none => .error .typeError
        | some f =>
          match f.dsets.lookup ds with
          | some a => .ok (some a, input_format, convert_range)
          | none => .error .keyError
      | .noneArg => .ok (none, input_format, convert_range)
  else .error .valueError

/-- `np.alltrue(test_frame[..., 0] == test_frame[..., -1])` on the test
frame: channel 0 equals the last channel everywhere. -/
def MediaVideo.detect_grayscale (m : MediaVideo) : Bool :=
  let t := m.test_frame
  (List.range t.d0).all fun i =>
    (List.range t.d1).all fun j =>
      decide (t.val i j 0 = t.val i j (t.d2 - 1))

/-- `MediaVideo.__init__`: raise `FileNotFoundError` unless `filename` names
a regular file; otherwise open the capture (`capture` models
`cv2.VideoCapture`), read a test frame, and detect grayscale when the
`grayscale` argument was left unset (`none`). -/
def media_video_init (isfile : List Char → Bool) (capture : List Char → Arr4)
    (filename : List Char) (grayscaleArg : Option Bool) (bgr : Bool) :
    Except PyErr MediaVideo :=
  if isfile filename then
    let m0 : MediaVideo := ⟨capture filename, grayscaleArg.getD false, bgr⟩
    match grayscaleArg with
    | none => .ok { m0 with grayscale := m0.detect_grayscale }
    | some _ => .ok m0
  else .error .fileNotFound

/-- The `filename` argument of `NumpyVideo`: a numpy array, a string, or
anything else. -/
inductive NpFilenameArg where
  | arr (a : Arr4)
  | str (s : List Char)
  | other

/-- `NumpyVideo.__attrs_post_init__`.  `npload` models `np.load`: `none`
means it raises `OSError`, re-raised as `FileNotFoundError`. -/
def numpy_video_init (npload : List Char → Option Arr4)
    (filename : NpFilenameArg) : Except PyErr (Option Arr4) :=
  match filename with
  | .arr a => .ok (some a)
  | .str s =>
    match npload s with
    | some a => .ok (some a)
    | none => .error .fileNotFound
  | .other => .ok none

/-! ### `FormBuilderLayout` (`sleap/gui/formbuilder.py`)

Qt widgets are modelled by the state that `build_form` sets and
`get_widget_value` reads.  A fresh `QSpinBox` has range 0–99 and a fresh
`QDoubleSpinBox` has range 0.0–99.99 with two decimals (the source itself
works around the former: "temp fix to ensure default within range");
`setValue` clamps to the range, and `QDoubleSpinBox.setValue` rounds to the
configured number of decimals. -/

/-- A form field value (Python: bool, numeric or string). -/
inductive FVal where
  | i (n : Int)
  | d (q : ℚ)
  | b (v : Bool)
  | s (t : List Char)
deriving DecidableEq, Repr

/-- A field descriptor's `type` tag together with its (well-typed) `default`
and, for list fields, the comma-separated `options` string. -/
inductive FType where
  | double (default : ℚ)
  | int (default : Int)
  | bool (default : Bool)
  | list (default : List Char) (options : List Char)
  | file_open (default : List Char)
  | file_dir (default : List Char)
  | string (default : List Char)

/-- A form field descriptor (`{name, label, type, default, options?}`). -/
structure FormItem where
  name : List Char
  label : List Char
  ftype : FType

/-- Widget state relevant to `get_widget_value`. -/
inductive WKind where
  | qlabel
  | spinD (v : ℚ)
  | spinI (v : Int)
  | check (v : Bool)
  | combo (opts : List (List Char)) (idx : Nat)
  | line (t : List Char)
  | button
deriving DecidableEq

/-- A widget in the layout: its `objectName` and its state. -/
structure Widget where
  objectName : List Char
  kind : WKind

/-- Clamp an integer to `[lo, hi]` (`QSpinBox.setValue`). -/
def intClamp (lo hi v : Int) : Int := max lo (min hi v)

/-- Python `list.index`: the first index holding the element. -/
def listIndex {α : Type} [DecidableEq α] (a : α) : List α → Nat
  | [] => 0
  | x :: xs => if x = a then 0 else listIndex a xs + 1

/-- `QDoubleSpinBox.setValue` on a fresh widget: round to 2 decimals and
clamp to the default range `[0.0, 99.99]`. -/
def qtSetValueD (q : ℚ) : ℚ :=
  max 0 (min (9999 / 100) (((round (q * 100) : Int) : ℚ) / 100))

/-- The field widget `build_form` creates for one descriptor. -/
def buildField (it : FormItem) : WKind :=
  match it.ftype with
  | .double d => .spinD (qtSetValueD d)
  | .int d =>
    if d > 99 then .spinI (intClamp 0 (d * 10) d) else .spinI (intClamp 0 99 d)
  | .bool b => .check b
  | .list d opts =>
    let os := splitOnChar ',' opts
    if d ∈ os then .combo os (listIndex d os) else .combo os 0
  | .file_open d => .line d
  | .file_dir d => .line d
  | .string d => .line d

/-- Whether the descriptor's type tag starts with `file` (`file_open` /
`file_dir`). -/
def isFileType (it : FormItem) : Bool :=
  match it.ftype with
  | .file_open _ => true
  | .file_dir _ => true
  | _ => false

/-- The widgets `build_form` adds for one descriptor: `addRow(label, field)`
creates a label and the field; file fields additionally get a row with an
empty label and a select button. -/
def buildItemRows (it : FormItem) : List Widget :=
  [⟨[], .qlabel⟩, ⟨it.name, buildField it⟩] ++
    (if isFileType it then [⟨[], .qlabel⟩, ⟨[], .button⟩] else [])

/-- `FormBuilderLayout.build_form`. -/
def build_form (items : List FormItem) : List Widget :=
  items.flatMap buildItemRows

/-- `FormBuilderLayout.get_widget_value`: the first applicable accessor of
`isChecked`, `value`, `currentText`, `text`. -/
def get_widget_value (w : Widget) : FVal :=
  match w.kind with
  | .check b => .b b
  | .spinD v => .d v
  | .spinI v => .i v
  | .combo opts idx => .s (opts.getD idx [])
  | .line t => .s t
  | .qlabel => .s []
  | .button => .s []

/-- Widgets excluded from `get_form_data` by type (`QLabel`,
`QPushButton`). -/
def isLabelOrButton (w : Widget) : Bool :=
  match w.kind with
  | .qlabel => true
  | .button => true
  | _ => false

/-- `FormBuilderLayout.get_form_data`: name/value pairs of every named,
non-label, non-button widget in the layout. -/
def get_form_data (ws : List Widget) : List (List Char × FVal) :=
  (ws.filter fun w => w.objectName ≠ [] ∧ ¬ isLabelOrButton w).map
    fun w => (w.objectName, get_widget_value w)

/-! ### `Augmenter` (`sleap/nn/augmentation.py`) -/

/-- `np.array_split` of a list into `k` parts: the first `len % k` parts get
`len / k + 1` elements, the rest `len / k`. -/
def arraySplitAux {α : Type} : Nat → Nat → Nat → List α → List (List α)
  | 0, _, _, _ => []
  | k + 1, q, r, l =>
    if r ≠ 0 then l.take (q + 1) :: arraySplitAux k q (r - 1) (l.drop (q + 1))
    else l.take q :: arraySplitAux k q 0 (l.drop q)

/-- `np.array_split(l, k)`. -/
def arraySplit {α : Type} (l : List α) (k : Nat) : List (List α) :=
  arraySplitAux k (l.length / k) (l.length % k) l

/-- `np.ceil(n / batch_size)` as a natural number (`batch_size = b`). -/
def ceilDiv (n b : Nat) : Nat := (n + b - 1) / b

/-- `Augmenter.__attrs_post_init__` batching (before any shuffling):
`np.array_split(np.arange(num_samples), ceil(num_samples / batch_size))`. -/
def augBatches (n b : Nat) : List (List Nat) :=
  arraySplit (List.range n) (ceilDiv n b)

/-- `Augmenter.shuffle(batches_only=False)`: re-batch a shuffled index
order (`order` is the output of `np.random.shuffle(np.arange(n))`, using
`self.num_samples = n` for the split count). -/
def shuffleFull (n b : Nat) (order : List Nat) : List (List Nat) :=
  arraySplit order (ceilDiv n b)

/-- The batching invariant of claim C9: `ceil(n / b)` batches whose
concatenation is a permutation of `0 .. n-1` (and `__len__`, the number of
batches, equals that count). -/
def batchInvariant (n b : Nat) (bs : List (List Nat)) : Prop :=
  bs.length = ceilDiv n b ∧ bs.flatten.Perm (List.range n)

/-- The per-frame splitting loop of `Augmenter.__getitem__`: cut `flat` into
consecutive chunks of the given sizes (`offset` bookkeeping). -/
def splitByCounts {α : Type} : List Nat → List α → List (List α)
  | [], _ => []
  | c :: rest, flat => flat.take c :: splitByCounts rest (flat.drop c)

/-- The keypoint realignment of `Augmenter.__getitem__` for one batch:
record per-instance point counts, concatenate each frame's instance arrays
(an empty frame becomes an empty `KeypointsOnImage`), augment every keypoint
(`augPt` is the deterministic augmenter applied to one keypoint), and split
each frame's flat array back by the recorded counts. -/
def getitem_split_points {α β : Type} (augPt : α → β)
    (frames_in_batch : List (List (List α))) : List (List (List β)) :=
  frames_in_batch.map fun frame =>
    let counts := frame.map List.length
    let flat := if frame.length ≠ 0 then frame.flatten else []
    let aug_flat := flat.map augPt
    splitByCounts counts aug_flat

/-! ## Claim C8: `fixup_path` on non-string inputs -/

/-- C8: for every input that is not a string, `Video.fixup_path` returns the
input unchanged, without raising and without consulting the filesystem (the
result is the same for every filesystem predicate). -/
theorem fixup_path_nonstring (fs fs' : List Char → Bool) (v : PathArg)
    (h : ∀ s, v ≠ PathArg.str s) :
    fixup_path fs v = some v ∧ fixup_path fs v = fixup_path fs' v := by
  cases v with
  | str s => exact absurd rfl (h s)
  | pyNone => exact ⟨rfl, rfl⟩
  | h5file id => exact ⟨rfl, rfl⟩
  | ndarray a => exact ⟨rfl, rfl⟩

/-- Witness for C8 at the concrete input `None`. -/
theorem fixup_path_nonstring_witness :
    fixup_path (fun _ => false) PathArg.pyNone = some PathArg.pyNone ∧
      fixup_path (fun _ => false) PathArg.pyNone =
        fixup_path (fun _ => true) PathArg.pyNone :=
  fixup_path_nonstring (fun _ => false) (fun _ => true) PathArg.pyNone
    (fun _ h => nomatch h)

/-! ## Claim C3: `fixup_path` resolution strategy order -/

/-- Modelled from claim C3's wording: the candidate paths are, in order, the
path as given, its basename, and — only when the path ends with
`metadata.yaml` — the name of the parent directory of that file; the result
is the first candidate naming an existing entry, and a not-found error when
none applies. -/
def fixup_path_claim (fs : List Char → Bool) (path : List Char) :
    Option (List Char) :=
  (([path, basename path] ++
      (if mlChars.isSuffixOf path then [basename (osSplit path).1] else [])
    ).filter fs).head?

/-- C3: for every string path and every filesystem, `Video.fixup_path`
returns the first of the three resolution strategies that names an existing
entry (path as given, basename, parent-directory name for
`metadata.yaml` paths) and raises `FileNotFoundError` when none applies. -/
theorem fixup_path_strategy_order (fs : List Char → Bool) (path : List Char) :
    fixup_path_str fs path = fixup_path_claim fs path := by
  unfold fixup_path_str fixup_path_claim
  cases h1 : fs path with
  | true => simp [h1]
  | false =>
    cases h2 : fs (basename path) with
    | true => simp [h1, h2]
    | false =>
      cases h3 : mlChars.isSuffixOf path with
      | true =>
        cases h4 : fs (basename (osSplit path).1) with
        | true => simp [h1, h2, h3, h4]
        | false => simp [h1, h2, h3, h4]
      | false => simp [h1, h2, h3]

/-! ## Claim C7: keypoint realignment in `Augmenter.__getitem__` -/

theorem splitByCounts_length {α : Type} (counts : List Nat) (flat : List α) :
    (splitByCounts counts flat).length = counts.length := by
  induction counts generalizing flat with
  | nil => rfl
  | cons c rest ih => simp [splitByCounts, ih]

theorem splitByCounts_map_length {α : Type} (counts : List Nat)
    (flat : List α) (h : counts.sum ≤ flat.length) :
    (splitByCounts counts flat).map List.length = counts := by
  induction counts generalizing flat with
  | nil => rfl
  | cons c rest ih =>
    simp only [List.sum_cons] at h
    simp only [splitByCounts, List.map_cons, List.cons.injEq]
    constructor
    · rw [List.length_take]
      exact Nat.min_eq_left (by omega)
    · refine ih _ ?_
      rw [List.length_drop]
      omega

theorem splitByCounts_flatten {α : Type} (counts : List Nat)
    (flat : List α) :
    (splitByCounts counts flat).flatten = flat.take counts.sum := by
  induction counts generalizing flat with
  | nil => simp [splitByCounts]
  | cons c rest ih =>
    simp only [splitByCounts, List.flatten_cons, ih, List.sum_cons,
      List.take_add]

/-- The empty-frame guard of `__getitem__` (an empty `KeypointsOnImage` for a
frame with no instances) agrees with plain concatenation. -/
theorem flatten_guard {α : Type} (frame : List (List α)) :
    (if frame.length ≠ 0 then frame.flatten else []) = frame.flatten := by
  cases frame <;> simp

/-- Index-wise lengths agree between two nested lists whose length images
agree. -/
theorem getD_length_of_map_length {α β : Type} (l₁ : List (List α))
    (l₂ : List (List β)) (h : l₁.map List.length = l₂.map List.length)
    (j : Nat) : (l₁.getD j []).length = (l₂.getD j []).length := by
  have hlen : l₁.length = l₂.length := by
    have := congrArg List.length h
    simpa using this
  rcases Nat.lt_or_ge j l₁.length with hj | hj
  · have hj₂ : j < l₂.length := hlen ▸ hj
    rw [List.getD_eq_getElem _ _ hj, List.getD_eq_getElem _ _ hj₂]
    have := congrArg (fun l => l.getD j 0) h
    simpa [List.getD_eq_getElem, hj, hj₂, List.length_map] using this
  · rw [List.getD_eq_default _ _ hj, List.getD_eq_default _ _ (hlen ▸ hj)]
    rfl

/-- Per-frame content of the realignment: right number of instances, right
per-instance point counts, and concatenation reproduces the augmented flat
array. -/
theorem split_points_frame {α : Type} (augPt : α → α)
    (frame : List (List α)) :
    (splitByCounts (frame.map List.length)
        ((if frame.length ≠ 0 then frame.flatten else []).map augPt)).map
        List.length = frame.map List.length
    ∧ (splitByCounts (frame.map List.length)
        ((if frame.length ≠ 0 then frame.flatten else []).map augPt)).flatten
      = frame.flatten.map augPt := by
  rw [flatten_guard]
  have hlen : (frame.map List.length).sum = (frame.flatten.map augPt).length := by
    rw [List.length_map, List.length_flatten]
  constructor
  · exact splitByCounts_map_length _ _ (le_of_eq hlen)
  · rw [splitByCounts_flatten, hlen, List.take_length]

/-- C7: in the points branch of `Augmenter.__getitem__`, the realigned
`split_points` gives every frame of the batch the same number of instances
as the input frame, every instance the same point count as the corresponding
input instance, and concatenating a frame's instance arrays in order
reproduces that frame's augmented flat keypoint array exactly. -/
theorem augmenter_point_realignment {α : Type} (augPt : α → α)
    (frames_in_batch : List (List (List α))) :
    (getitem_split_points augPt frames_in_batch).length
        = frames_in_batch.length
    ∧ ∀ i : Nat,
      ((getitem_split_points augPt frames_in_batch).getD i []).length
          = (frames_in_batch.getD i []).length
      ∧ (∀ j : Nat,
          (((getitem_split_points augPt frames_in_batch).getD i []).getD j
              []).length
            = ((frames_in_batch.getD i []).getD j []).length)
      ∧ ((getitem_split_points augPt frames_in_batch).getD i []).flatten
          = ((frames_in_batch.getD i []).flatten).map augPt := by
  constructor
  · simp [getitem_split_points]
  · intro i
    rcases Nat.lt_or_ge i frames_in_batch.length with hi | hi
    · have hi' : i < (getitem_split_points augPt frames_in_batch).length := by
        simpa [getitem_split_points] using hi
      rw [List.getD_eq_getElem _ _ hi', List.getD_eq_getElem _ _ hi]
      unfold getitem_split_points
      rw [List.getElem_map]
      have hf := split_points_frame augPt frames_in_batch[i]
      refine ⟨?_, ?_, hf.2⟩
      · have := congrArg List.length hf.1
        simpa using this
      · intro j
        exact getD_length_of_map_length _ _ hf.1 j
    · have hi' : (getitem_split_points augPt frames_in_batch).length ≤ i := by
        simpa [getitem_split_points] using hi
      rw [List.getD_eq_default _ _ hi', List.getD_eq_default _ _ hi]
      simp

/-! ## Claim C9: `Augmenter` batching invariant -/

theorem arraySplitAux_length {α : Type} (k q r : Nat) (l : List α) :
    (arraySplitAux k q r l).length = k := by
  induction k generalizing r l with
  | zero => rfl
  | succ k ih =>
    unfold arraySplitAux
    split <;> simp [ih]

theorem arraySplitAux_flatten {α : Type} (k q r : Nat) (l : List α)
    (hr : r ≤ k) :
    (arraySplitAux k q r l).flatten = l.take (k * q + r) := by
  induction k generalizing r l with
  | zero =>
    interval_cases r
    simp [arraySplitAux]
  | succ k ih =>
    unfold arraySplitAux
    by_cases h : r ≠ 0
    · rw [if_pos h, List.flatten_cons, ih _ _ (by omega), ← List.take_add]
      congr 1
      cases r with
      | zero => exact absurd rfl h
      | succ r =>
        simp only [Nat.succ_sub_one]
        ring
    · rw [if_neg h, List.flatten_cons, ih _ _ (by omega), ← List.take_add]
      congr 1
      have hr0 : r = 0 := by omega
      subst hr0
      ring

theorem arraySplit_length {α : Type} (l : List α) (k : Nat) :
    (arraySplit l k).length = k :=
  arraySplitAux_length k _ _ l

theorem arraySplit_flatten {α : Type} (l : List α) (k : Nat) (hk : 0 < k) :
    (arraySplit l k).flatten = l := by
  unfold arraySplit
  rw [arraySplitAux_flatten _ _ _ _ (le_of_lt (Nat.mod_lt _ hk)),
    Nat.div_add_mod, List.take_length]

theorem ceilDiv_pos (n b : Nat) (hn : 1 ≤ n) (hb : 1 ≤ b) :
    0 < ceilDiv n b :=
  Nat.div_pos (by omega) (by omega)

/-- C9: the `Augmenter` batching invariant holds after construction and is
preserved by every call to `shuffle`: `self.batches` is a list of
`ceil(num_samples / batch_size)` index chunks whose concatenation is a
permutation of `0 .. num_samples - 1` (so `__len__`, the batch-list length,
equals that count); `shuffle(batches_only=True)` permutes the batch list and
`shuffle(batches_only=False)` re-splits a permutation of all indices. -/
theorem augmenter_batching_invariant (n b : Nat) (hn : 1 ≤ n) (hb : 1 ≤ b) :
    batchInvariant n b (augBatches n b)
    ∧ (∀ bs bs' : List (List Nat),
        batchInvariant n b bs → bs'.Perm bs → batchInvariant n b bs')
    ∧ (∀ order : List Nat, order.Perm (List.range n) →
        batchInvariant n b (shuffleFull n b order)) := by
  have hk := ceilDiv_pos n b hn hb
  refine ⟨?_, ?_, ?_⟩
  · unfold augBatches
    refine ⟨arraySplit_length _ _, ?_⟩
    rw [arraySplit_flatten _ _ hk]
  · rintro bs bs' ⟨hlen, hperm⟩ hp
    exact ⟨hp.length_eq.trans hlen, (hp.flatten).trans hperm⟩
  · intro order hp
    unfold shuffleFull
    refine ⟨arraySplit_length _ _, ?_⟩
    rw [arraySplit_flatten _ _ hk]
    exact hp

/-- Witness for C9 with five samples, batch size two, and a concrete
full-shuffle order. -/
theorem augmenter_batching_invariant_witness :
    batchInvariant 5 2 (augBatches 5 2)
    ∧ batchInvariant 5 2 (shuffleFull 5 2 [4, 2, 0, 1, 3]) :=
  ⟨(augmenter_batching_invariant 5 2 (by decide) (by decide)).1,
    (augmenter_batching_invariant 5 2 (by decide) (by decide)).2.2
      [4, 2, 0, 1, 3] (by decide)⟩

/-! ## Claim C1: the frame-shape contract of the backends -/

/-- A concrete `NumpyVideo` over an array of shape `(1, 2, 3, 1)`. -/
def nvCE : NumpyVideo := ⟨⟨1, 2, 3, 1, fun _ _ _ _ => 0⟩⟩

/-- Counterexample to C1 as stated: for a `NumpyVideo` over an array of
shape `(1, 2, 3, 1)`, `get_frame(0)` has shape `(2, 3, 1)` while
`(height, width, channels) = (3, 2, 1)` — the fetched frame is **not** of
shape `(height, width, channels)`. -/
theorem numpy_frame_shape_ce :
    ¬ ((nvCE.get_frame 0).d0 = nvCE.height ∧
        (nvCE.get_frame 0).d1 = nvCE.width ∧
        (nvCE.get_frame 0).d2 = nvCE.channels) := by
  decide

theorem hdf5_raw_frame_dims (v : HDF5Video) (idx : Nat) :
    (v.raw_frame idx).d0 = v.height ∧ (v.raw_frame idx).d1 = v.width ∧
      (v.raw_frame idx).d2 = v.channels := by
  unfold HDF5Video.raw_frame HDF5Video.height HDF5Video.width
    HDF5Video.channels HDF5Video.height_idx HDF5Video.width_idx
    HDF5Video.channel_idx
  by_cases h : v.input_format = channelsFirst <;>
    simp [h, Arr4.slice0, Arr3.transpose210, Arr4.shape]

theorem hdf5_get_frame_dims (v : HDF5Video) (idx : Nat) (f : Arr3)
    (h : v.get_frame idx = some f) :
    f.d0 = (v.raw_frame idx).d0 ∧ f.d1 = (v.raw_frame idx).d1 ∧
      f.d2 = (v.raw_frame idx).d2 := by
  simp only [HDF5Video.get_frame] at h
  split at h
  · split at h
    · exact absurd h (by simp)
    · split at h <;>
      · simp only [Option.some.injEq] at h
        subst h
        exact ⟨rfl, rfl, rfl⟩
  · simp only [Option.some.injEq] at h
    subst h
    exact ⟨rfl, rfl, rfl⟩

theorem media_get_frame_dims (m : MediaVideo) (idx : Nat) :
    (m.get_frame idx).d0 = m.height ∧ (m.get_frame idx).d1 = m.width ∧
      (m.get_frame idx).d2 = m.channels := by
  unfold MediaVideo.get_frame MediaVideo.height MediaVideo.width
    MediaVideo.channels MediaVideo.test_frame MediaVideo.get_frame_g
  by_cases hg : m.grayscale <;> by_cases hb : m.bgr <;>
    simp [hg, hb, Arr4.slice0]

theorem imgstore_get_frame_dims (s : ImgStoreVideo) (n : Nat) :
    (s.get_frame n).d0 = s.height ∧ (s.get_frame n).d1 = s.width ∧
      (s.get_frame n).d2 = s.channels := by
  unfold ImgStoreVideo.get_frame ImgStoreVideo.height ImgStoreVideo.width
    ImgStoreVideo.channels
  by_cases h : s.gray2d <;> simp [h]

/-- C1 as amended: `Video.shape` is `(frames, height, width, channels)` for
every backend, and a fetched frame has shape `(height, width, channels)` as
reported by the backend's properties for the HDF5, media and imgstore
backends — but for `NumpyVideo` the fetched frame has shape
`(width, height, channels)` (axes 1 and 2 of the stored array are reported
as width and height respectively, yet `get_frame` returns them in storage
order). -/
theorem video_backend_shape_contract :
    (∀ (v : HDF5Video) (idx : Nat) (f : Arr3), v.get_frame idx = some f →
        f.d0 = v.height ∧ f.d1 = v.width ∧ f.d2 = v.channels)
    ∧ (∀ (m : MediaVideo) (idx : Nat),
        (m.get_frame idx).d0 = m.height ∧ (m.get_frame idx).d1 = m.width ∧
          (m.get_frame idx).d2 = m.channels)
    ∧ (∀ (s : ImgStoreVideo) (n : Nat),
        (s.get_frame n).d0 = s.height ∧ (s.get_frame n).d1 = s.width ∧
          (s.get_frame n).d2 = s.channels)
    ∧ (∀ (nv : NumpyVideo) (idx : Nat),
        (nv.get_frame idx).d0 = nv.width ∧
          (nv.get_frame idx).d1 = nv.height ∧
          (nv.get_frame idx).d2 = nv.channels)
    ∧ (∀ b : VideoBackend,
        Video.shape b = (b.frames, b.height, b.width, b.channels)) := by
  refine ⟨?_, media_get_frame_dims, imgstore_get_frame_dims, ?_, ?_⟩
  · intro v idx f h
    obtain ⟨h0, h1, h2⟩ := hdf5_get_frame_dims v idx f h
    obtain ⟨g0, g1, g2⟩ := hdf5_raw_frame_dims v idx
    exact ⟨h0.trans g0, h1.trans g1, h2.trans g2⟩
  · intro nv idx
    exact ⟨rfl, rfl, rfl⟩
  · intro b
    rfl

/-- A concrete `HDF5Video` (channels-last, no range conversion) over a
`1 × 1 × 1 × 1` dataset, for the C1 witness. -/
def hdf5W : HDF5Video := ⟨⟨1, 1, 1, 1, fun _ _ _ _ => 0⟩, channelsLast, false⟩

/-- Witness for the amended C1 at a concrete HDF5 backend and frame. -/
theorem video_backend_shape_contract_witness :
    hdf5W.get_frame 0 = some (hdf5W.raw_frame 0) ∧
      ((hdf5W.raw_frame 0).d0 = hdf5W.height ∧
        (hdf5W.raw_frame 0).d1 = hdf5W.width ∧
        (hdf5W.raw_frame 0).d2 = hdf5W.channels) :=
  ⟨rfl, video_backend_shape_contract.1 hdf5W 0 (hdf5W.raw_frame 0) rfl⟩

/-! ## Claim C2: range conversion happens only in the HDF5 backend -/

theorem foldl_max_le (l : List ℚ) (a c : ℚ) (ha : a ≤ c)
    (hl : ∀ x ∈ l, x ≤ c) : l.foldl max a ≤ c := by
  induction l generalizing a with
  | nil => exact ha
  | cons x xs ih =>
    exact ih (max a x) (max_le ha (hl x (by simp)))
      (fun y hy => hl y (by simp [hy]))

theorem max?_le_one (l : List ℚ) (hne : l ≠ []) (hall : ∀ x ∈ l, x ≤ 1) :
    ∃ m, l.max? = some m ∧ m ≤ 1 := by
  cases l with
  | nil => exact absurd rfl hne
  | cons x xs =>
    exact ⟨_, rfl, foldl_max_le xs x 1 (hall x (by simp))
      (fun y hy => hall y (by simp [hy]))⟩

/-- C2: pixel-range conversion to 0–255 happens only in the HDF5 backend:
`HDF5Video.get_frame` returns the frame multiplied by 255 and cast to int
whenever `convert_range` holds and every value of the fetched frame is at
most 1 (the frame being nonempty, else `np.max` raises); the numpy, media
and imgstore backends return input pixel values untouched — every output
entry equals an entry of the underlying data. -/
theorem range_conversion_only_hdf5 :
    (∀ (v : HDF5Video) (idx : Nat), v.convert_range = true →
        (v.raw_frame idx).vals ≠ [] →
        (∀ q ∈ (v.raw_frame idx).vals, q ≤ 1) →
        v.get_frame idx =
          some ((v.raw_frame idx).map fun q => ((truncInt (q * 255) : Int) : ℚ)))
    ∧ (∀ (nv : NumpyVideo) (idx i j k : Nat),
        (nv.get_frame idx).val i j k = nv.data.val idx i j k)
    ∧ (∀ (m : MediaVideo) (idx i j k : Nat),
        ∃ c, (m.get_frame idx).val i j k = m.data.val idx i j c)
    ∧ (∀ (s : ImgStoreVideo) (num a b k : Nat),
        ∃ i c, (s.get_frame num).val a b k = s.val i a b c) := by
  refine ⟨?_, ?_, ?_, ?_⟩
  · intro v idx hc hne hall
    obtain ⟨m, hm, hm1⟩ := max?_le_one _ hne hall
    simp only [HDF5Video.get_frame, hc, if_true, hm, hm1, if_pos]
  · intro nv idx i j k
    rfl
  · intro m idx i j k
    unfold MediaVideo.get_frame MediaVideo.get_frame_g
    by_cases hg : m.grayscale <;> by_cases hb : m.bgr <;>
      simp [hg, hb, Arr4.slice0]
  · intro s num a b k
    unfold ImgStoreVideo.get_frame
    by_cases h : s.gray2d <;> simp [h] <;> exact ⟨_, _, rfl⟩

/-- A concrete `HDF5Video` with `convert_range` set, over a normalized
`1 × 1 × 1 × 1` dataset, for the C2 witness. -/
def hdf5CW : HDF5Video := ⟨⟨1, 1, 1, 1, fun _ _ _ _ => 0⟩, channelsLast, true⟩

/-- Witness for C2 at a concrete normalized HDF5 backend. -/
theorem range_conversion_only_hdf5_witness :
    hdf5CW.get_frame 0 =
      some ((hdf5CW.raw_frame 0).map fun q => ((truncInt (q * 255) : Int) : ℚ)) :=
  range_conversion_only_hdf5.1 hdf5CW 0 rfl (by decide) (by decide)

/-! ## Claim C4: `Video.from_filename` dispatch -/

/-- Modelled from claim C4's wording: dispatch on the literal dotted
extensions `.h5`/`.hdf5`, `.npy`, `.mp4`/`.avi`, then existing directory or
`metadata.yaml` substring, else `ValueError`. -/
def from_filename_claim (fs isdir : List Char → Bool) (path : List Char) :
    Except PyErr BackendTag :=
  match fixup_path_str fs path with
  | none => .error .fileNotFound
  | some filename =>
    if (".h5".toList.isSuffixOf filename ∨
        ".hdf5".toList.isSuffixOf filename) then .ok .hdf5
    else if ".npy".toList.isSuffixOf filename then .ok .numpy
    else if (".mp4".toList.isSuffixOf filename ∨
        ".avi".toList.isSuffixOf filename) then .ok .media
    else if isdir filename ∨ containsML filename then .ok .imgstore
    else .error .valueError

/-- The filesystem of the C4 counterexample: exactly one entry, the file
`xh5`. -/
def fsCE : List Char → Bool := fun p => decide (p = "xh5".toList)

/-- Counterexample to C4 as stated: the existing filename `xh5` ends in
none of the dotted extensions, is not a directory, and does not contain
`metadata.yaml`, so the claim predicts `ValueError` — but `from_filename`
matches the suffix `h5` without requiring a dot and constructs an
`HDF5Video` backend. -/
theorem from_filename_ce :
    from_filename fsCE (fun _ => false) "xh5".toList = .ok .hdf5 ∧
      from_filename_claim fsCE (fun _ => false) "xh5".toList =
        .error .valueError :=
  ⟨rfl, rfl⟩

/-- C4 as amended: after path fixup succeeds, a fixed-up name whose
lowercase form ends in `h5` or `hdf5` (no dot required, case-insensitive)
constructs the HDF5 backend; otherwise one ending in `npy` (case-sensitive,
no dot) the numpy backend; otherwise one whose lowercase form ends in `mp4`
or `avi` the media backend; otherwise an existing directory or a name
containing `metadata.yaml` the imgstore backend; any other name raises
`ValueError` (and a path that cannot be fixed up raises
`FileNotFoundError`). -/
theorem from_filename_dispatch (fs isdir : List Char → Bool)
    (path : List Char) :
    (fixup_path_str fs path = none →
      from_filename fs isdir path = .error .fileNotFound)
    ∧ ∀ f, fixup_path_str fs path = some f →
      (("h5".toList <:+ lowerStr f ∨ "hdf5".toList <:+ lowerStr f) →
        from_filename fs isdir path = .ok .hdf5)
      ∧ (¬ "h5".toList <:+ lowerStr f → ¬ "hdf5".toList <:+ lowerStr f →
          "npy".toList <:+ f →
        from_filename fs isdir path = .ok .numpy)
      ∧ (¬ "h5".toList <:+ lowerStr f → ¬ "hdf5".toList <:+ lowerStr f →
          ¬ "npy".toList <:+ f →
          ("mp4".toList <:+ lowerStr f ∨ "avi".toList <:+ lowerStr f) →
        from_filename fs isdir path = .ok .media)
      ∧ (¬ "h5".toList <:+ lowerStr f → ¬ "hdf5".toList <:+ lowerStr f →
          ¬ "npy".toList <:+ f →
          ¬ "mp4".toList <:+ lowerStr f → ¬ "avi".toList <:+ lowerStr f →
          (isdir f = true ∨ containsML f = true) →
        from_filename fs isdir path = .ok .imgstore)
      ∧ (¬ "h5".toList <:+ lowerStr f → ¬ "hdf5".toList <:+ lowerStr f →
          ¬ "npy".toList <:+ f →
          ¬ "mp4".toList <:+ lowerStr f → ¬ "avi".toList <:+ lowerStr f →
          isdir f = false → containsML f = false →
        from_filename fs isdir path = .error .valueError) := by
  constructor
  · intro hnone
    unfold from_filename
    rw [hnone]
  · intro f hsome
    refine ⟨?_, ?_, ?_, ?_, ?_⟩ <;> unfold from_filename <;> rw [hsome]
    · rintro (h | h) <;> simp at h <;> simp [h]
    · intro h1 h2 h3
      simp at h1 h2 h3
      simp [h1, h2, h3]
    · rintro h1 h2 h3 (h | h) <;> simp at h1 h2 h3 h <;>
        simp [h1, h2, h3, h]
    · rintro h1 h2 h3 h4 h5 (h | h) <;> simp at h1 h2 h3 h4 h5 <;>
        simp [h1, h2, h3, h4, h5, h]
    · intro h1 h2 h3 h4 h5 h6 h7
      simp at h1 h2 h3 h4 h5
      simp [h1, h2, h3, h4, h5, h6, h7]

/-- Witness for the amended C4: the concrete existing file `xh5` is
dispatched to the HDF5 backend. -/
theorem from_filename_dispatch_witness :
    from_filename fsCE (fun _ => false) "xh5".toList = .ok .hdf5 :=
  ((from_filename_dispatch fsCE (fun _ => false) "xh5".toList).2
      "xh5".toList rfl).1 (Or.inl (by decide))

/-! ## Claim C5: construction fails immediately on invalid input -/

/-- C5: constructing a backend with bad input raises at construction time:
an `HDF5Video` with an `input_format` other than `channels_first` /
`channels_last` raises `ValueError` (the attrs validator runs before any
file access); an `HDF5Video`, `MediaVideo` or `NumpyVideo` whose string
filename does not name a readable file raises `FileNotFoundError`. -/
theorem construction_failures :
    (∀ (fsys : List Char → Option H5FileModel) (dataset : H5DatasetArg)
        (input_format : List Char) (convert_range : Bool)
        (filename : H5FilenameArg),
        input_format ≠ channelsFirst → input_format ≠ channelsLast →
        hdf5_video_init fsys filename dataset input_format convert_range =
          .error .valueError)
    ∧ (∀ (fsys : List Char → Option H5FileModel) (s : List Char)
        (dataset : H5DatasetArg) (input_format : List Char)
        (convert_range : Bool),
        (input_format = channelsFirst ∨ input_format = channelsLast) →
        fsys s = none →
        hdf5_video_init fsys (.str s) dataset input_format convert_range =
          .error .fileNotFound)
    ∧ (∀ (isfile : List Char → Bool) (capture : List Char → Arr4)
        (filename : List Char) (grayscaleArg : Option Bool) (bgr : Bool),
        isfile filename = false →
        media_video_init isfile capture filename grayscaleArg bgr =
          .error .fileNotFound)
    ∧ (∀ (npload : List Char → Option Arr4) (s : List Char),
        npload s = none →
        numpy_video_init npload (.str s) = .error .fileNotFound) := by
  refine ⟨?_, ?_, ?_, ?_⟩
  · intro fsys dataset fmt cr filename h1 h2
    unfold hdf5_video_init
    rw [if_neg (by tauto)]
  · intro fsys s dataset fmt cr hfmt hs
    unfold hdf5_video_init
    rw [if_pos hfmt]
    simp [hs]
  · intro isfile capture filename g bgr h
    unfold media_video_init
    rw [if_neg (by simp [h])]
  · intro npload s h
    unfold numpy_video_init
    simp [h]

/-- Witness for C5: a concrete missing HDF5 file, a concrete invalid
`input_format`, a concrete missing media file and a concrete missing numpy
file. -/
theorem construction_failures_witness :
    hdf5_video_init (fun _ => none) (.str "missing.h5".toList) .noneArg
        channelsLast true = .error .fileNotFound
    ∧ hdf5_video_init (fun _ => none) .other .noneArg
        "channels_mid".toList true = .error .valueError
    ∧ media_video_init (fun _ => false)
        (fun _ => ⟨0, 0, 0, 0, fun _ _ _ _ => 0⟩) "clip.mp4".toList none
        true = .error .fileNotFound
    ∧ numpy_video_init (fun _ => none) (.str "arr.npy".toList) =
        .error .fileNotFound :=
  ⟨construction_failures.2.1 _ _ _ _ _ (Or.inr rfl) rfl,
    construction_failures.1 _ _ _ _ _ (by decide) (by decide),
    construction_failures.2.2.1 _ _ _ _ _ rfl,
    construction_failures.2.2.2 _ _ rfl⟩

/-! ## Claim C6: form builder default round-trip -/

/-- The `default` entry of a field descriptor, as a form value. -/
def FormItem.defaultVal (it : FormItem) : FVal :=
  match it.ftype with
  | .double d => .d d
  | .int d => .i d
  | .bool b => .b b
  | .list d _ => .s d
  | .file_open d => .s d
  | .file_dir d => .s d
  | .string d => .s d

/-- A descriptor whose default survives the widget: non-negative int
defaults (the source's "temp fix" only widens the range upward), double
defaults representable in the spin box's default range and precision, and
list defaults that occur among the options. -/
def FormItem.admissible (it : FormItem) : Prop :=
  match it.ftype with
  | .double d => 0 ≤ d ∧ d ≤ 9999 / 100 ∧ (d * 100).den = 1
  | .int d => 0 ≤ d
  | .list d opts => d ∈ splitOnChar ',' opts
  | _ => True

/-- The one descriptor of the C6 counterexample: a list field whose default
is not among its options. -/
def itemCE : FormItem := ⟨"x".toList, "X".toList, .list "c".toList "a,b".toList⟩

/-- Counterexample to C6 as stated: for the list field `x` with options
`a,b` and default `c`, `get_form_data` after `build_form` returns `a` (the
combo box stays on its first entry), not the default `c`. -/
theorem form_default_ce :
    (get_form_data (build_form [itemCE])).lookup "x".toList ≠
        some (FVal.s "c".toList) ∧
      (get_form_data (build_form [itemCE])).lookup "x".toList =
        some (FVal.s "a".toList) := by
  decide

theorem buildField_not_label_button (it : FormItem) :
    isLabelOrButton ⟨it.name, buildField it⟩ = false := by
  obtain ⟨nm, lb, ft⟩ := it
  cases ft with
  | int d =>
    by_cases h : d > 99 <;> simp [buildField, isLabelOrButton, h]
  | list d opts =>
    by_cases h : d ∈ splitOnChar ',' opts <;>
      simp [buildField, isLabelOrButton, h]
  | _ => rfl

theorem filter_buildItemRows (it : FormItem) (hne : it.name ≠ []) :
    (buildItemRows it).filter
        (fun w => w.objectName ≠ [] ∧ ¬ isLabelOrButton w)
      = [⟨it.name, buildField it⟩] := by
  have hf := buildField_not_label_button it
  unfold buildItemRows
  by_cases h : isFileType it <;>
    simp [h, List.filter_cons, hne, hf]

theorem get_form_data_build (items : List FormItem)
    (hne : ∀ it ∈ items, it.name ≠ []) :
    get_form_data (build_form items) =
      items.map fun it => (it.name, get_widget_value ⟨it.name, buildField it⟩) := by
  induction items with
  | nil => rfl
  | cons a rest ih =>
    unfold build_form get_form_data at *
    rw [List.flatMap_cons, List.filter_append, List.map_append,
      filter_buildItemRows a (hne a (by simp)), List.map_cons]
    rw [ih fun it h => hne it (by simp [h])]
    rfl

theorem lookup_map_name (v : FormItem → FVal) (items : List FormItem) :
    (items.map FormItem.name).Nodup → ∀ it ∈ items,
      (items.map fun x => (x.name, v x)).lookup it.name = some (v it) := by
  induction items with
  | nil =>
    intro _ it h
    cases h
  | cons a rest ih =>
    intro hnd it hmem
    rw [List.map_cons] at hnd
    obtain ⟨hna, hndr⟩ := List.nodup_cons.mp hnd
    rw [List.map_cons, List.lookup_cons]
    rcases List.mem_cons.mp hmem with rfl | hmem'
    · simp
    · have hne : (it.name == a.name) = false := by
        refine beq_eq_false_iff_ne.mpr ?_
        intro he
        exact hna (he ▸ List.mem_map_of_mem FormItem.name hmem')
      rw [hne]
      exact ih hndr it hmem'

theorem getD_listIndex {α : Type} [DecidableEq α] (l : List α) (a d : α)
    (h : a ∈ l) : l.getD (listIndex a l) d = a := by
  induction l with
  | nil => cases h
  | cons x xs ih =>
    unfold listIndex
    by_cases hx : x = a
    · rw [if_pos hx]
      exact hx
    · rw [if_neg hx]
      have hm : a ∈ xs := by
        rcases List.mem_cons.mp h with he | hm
        · exact absurd he.symm hx
        · exact hm
      exact ih hm

theorem widget_value_default (it : FormItem) (h : it.admissible) :
    get_widget_value ⟨it.name, buildField it⟩ = it.defaultVal := by
  obtain ⟨nm, lb, ft⟩ := it
  cases ft with
  | double d =>
    obtain ⟨h0, h1, hden⟩ := h
    have hq : ((d * 100).num : ℚ) = d * 100 := (Rat.den_eq_one_iff _).mp hden
    have hr : round (d * 100) = (d * 100).num := by
      conv_lhs => rw [← hq]
      exact round_intCast _
    have hd : ((d * 100).num : ℚ) / 100 = d := by
      rw [hq]
      field_simp
    simp only [buildField, get_widget_value, FormItem.defaultVal,
      qtSetValueD, hr, hd]
    congr 1
    rw [min_eq_right h1, max_eq_right h0]
  | int d =>
    have h0 : (0 : Int) ≤ d := h
    simp only [buildField, get_widget_value, FormItem.defaultVal]
    by_cases h99 : d > 99
    · rw [if_pos h99]
      show FVal.i (intClamp 0 (d * 10) d) = FVal.i d
      congr 1
      unfold intClamp
      omega
    · rw [if_neg h99]
      show FVal.i (intClamp 0 99 d) = FVal.i d
      congr 1
      unfold intClamp
      omega
  | bool b => rfl
  | list d opts =>
    have hmem : d ∈ splitOnChar ',' opts := h
    simp only [buildField, get_widget_value, FormItem.defaultVal]
    rw [if_pos hmem]
    show FVal.s ((splitOnChar ',' opts).getD
        (listIndex d (splitOnChar ',' opts)) []) = FVal.s d
    congr 1
    exact getD_listIndex _ _ _ hmem
  | file_open d => rfl
  | file_dir d => rfl
  | string d => rfl

/-- C6 as amended: building the form and reading it back without user
interaction returns each descriptor's default, for descriptors with
distinct non-empty names whose defaults are representable by their widgets:
int defaults must be non-negative (a fresh `QSpinBox` clamps to `0..99` and
the source's "temp fix" only raises the upper bound), double defaults must
lie in the fresh `QDoubleSpinBox` range `0..99.99` with at most two
decimals, and a list default must occur among the field's options (the
combo box otherwise stays on the first option). -/
theorem form_defaults_roundtrip (items : List FormItem)
    (hnd : (items.map FormItem.name).Nodup)
    (hne : ∀ it ∈ items, it.name ≠ [])
    (hadm : ∀ it ∈ items, it.admissible) :
    ∀ it ∈ items,
      (get_form_data (build_form items)).lookup it.name =
        some it.defaultVal := by
  intro it hmem
  rw [get_form_data_build items hne,
    lookup_map_name (fun x => get_widget_value ⟨x.name, buildField x⟩) items
      hnd it hmem,
    widget_value_default it (hadm it hmem)]

/-- The descriptor of the C6 witness: an int field with default 5. -/
def itemW : FormItem := ⟨"sigma".toList, "Sigma".toList, .int 5⟩

/-- Witness for the amended C6 at a concrete one-field form. -/
theorem form_defaults_roundtrip_witness :
    (get_form_data (build_form [itemW])).lookup "sigma".toList =
      some (FVal.i 5) :=
  form_defaults_roundtrip [itemW] (by decide) (by decide)
    (by
      intro it hit
      rw [List.mem_singleton] at hit
      subst hit
      show (0 : Int) ≤ 5
      norm_num)
    itemW (List.mem_singleton.mpr rfl)

/-! ## Claim C10: `ImgStoreVideo` stored-filename shape -/

theorem splitOnChar_ne_nil (sep : Char) (p : List Char) :
    splitOnChar sep p ≠ [] := by
  induction p with
  | nil => simp [splitOnChar]
  | cons c rest ih =>
    unfold splitOnChar
    by_cases h : c = sep
    · simp [h]
    · rw [if_neg h]
      cases hs : splitOnChar sep rest with
      | nil => exact absurd hs ih
      | cons x xs => simp [List.modifyHead]

theorem splitOnChar_no_sep (sep : Char) (s : List Char) (h : sep ∉ s) :
    splitOnChar sep s = [s] := by
  induction s with
  | nil => rfl
  | cons c rest ih =>
    have hc : ¬ c = sep := fun he => h (by rw [he]; exact List.mem_cons_self _ _)
    unfold splitOnChar
    rw [if_neg hc, ih fun hm => h (List.mem_cons_of_mem c hm)]
    rfl

theorem splitOnChar_append_no_sep (sep : Char) (p s : List Char)
    (h : sep ∉ s) :
    splitOnChar sep (p ++ s) =
      (splitOnChar sep p).dropLast ++
        [(splitOnChar sep p).getLastD [] ++ s] := by
  induction p with
  | nil =>
    rw [List.nil_append, splitOnChar_no_sep sep s h]
    rfl
  | cons c rest ih =>
    rw [List.cons_append]
    unfold splitOnChar
    by_cases hc : c = sep
    · rw [if_pos hc, if_pos hc, ih]
      cases hX : splitOnChar sep rest with
      | nil => exact absurd hX (splitOnChar_ne_nil sep rest)
      | cons x xs =>
        cases xs with
        | nil => rfl
        | cons y ys =>
          simp only [List.dropLast_cons₂, List.getLastD_cons, List.cons_append]
    · rw [if_neg hc, if_neg hc, ih]
      cases hX : splitOnChar sep rest with
      | nil => exact absurd hX (splitOnChar_ne_nil sep rest)
      | cons x xs =>
        cases xs with
        | nil => rfl
        | cons y ys =>
          simp only [List.modifyHead, List.dropLast_cons₂, List.getLastD_cons,
            List.cons_append]

theorem splitSlash_append_no_sep (p s : List Char) (h : ('/' : Char) ∉ s) :
    splitSlash (p ++ s) =
      (splitSlash p).dropLast ++ [(splitSlash p).getLastD [] ++ s] :=
  splitOnChar_append_no_sep '/' p s h

theorem joinSlash_suffix (X : List (List Char)) (t : List Char) :
    t <:+ joinSlash (X ++ [t]) := by
  induction X with
  | nil => exact List.suffix_refl t
  | cons c X ih =>
    rw [List.cons_append]
    have hcons : joinSlash (c :: (X ++ [t])) = c ++ '/' :: joinSlash (X ++ [t]) := by
      cases X <;> rfl
    rw [hcons]
    exact (ih.trans (List.suffix_cons '/' _)).trans (List.suffix_append c _)

theorem foldl_normStep_concat (b : Bool) (acc : List (List Char))
    (cs : List (List Char)) (t : List Char)
    (h1 : t ≠ []) (h2 : t ≠ ['.']) (h3 : t ≠ ['.', '.']) :
    (cs ++ [t]).foldl (normStep b) acc = cs.foldl (normStep b) acc ++ [t] := by
  rw [List.foldl_concat]
  unfold normStep
  rw [if_neg (by tauto), if_pos (Or.inl h3)]

theorem suffix_assemble (s t A : List Char) (Y : List (List Char))
    (ht1 : t ≠ []) (hts : s <:+ t) :
    s <:+ (if A ++ joinSlash (Y ++ [t]) = [] then ['.']
      else A ++ joinSlash (Y ++ [t])) := by
  have hjoin := joinSlash_suffix Y t
  have hne : A ++ joinSlash (Y ++ [t]) ≠ [] := by
    intro he
    rw [(List.append_eq_nil.mp he).2] at hjoin
    exact ht1 (List.suffix_nil.mp hjoin)
  rw [if_neg hne]
  exact (hts.trans hjoin).trans (List.suffix_append _ _)

/-- `posixpath.normpath` preserves a slash-free suffix (one that is not a
special component). -/
theorem normpath_suffix (s p : List Char) (hs : ('/' : Char) ∉ s)
    (h1 : s ≠ []) (h2 : s ≠ ['.']) (h3 : s ≠ ['.', '.'])
    (hsuf : s <:+ p) : s <:+ normpath p := by
  obtain ⟨q, rfl⟩ := hsuf
  have hp : q ++ s ≠ [] := fun he => h1 (List.append_eq_nil.mp he).2
  have hts : s <:+ (splitSlash q).getLastD [] ++ s := List.suffix_append _ _
  have ht1 : (splitSlash q).getLastD [] ++ s ≠ [] :=
    fun he => h1 (List.append_eq_nil.mp he).2
  have ht2 : (splitSlash q).getLastD [] ++ s ≠ ['.'] := by
    intro he
    rcases List.append_eq_cons_iff.mp he with ⟨_, hsd⟩ | ⟨u, _, hus⟩
    · exact h2 hsd
    · exact h1 (List.append_eq_nil.mp hus.symm).2
  have ht3 : (splitSlash q).getLastD [] ++ s ≠ ['.', '.'] := by
    intro he
    rcases List.append_eq_cons_iff.mp he with ⟨_, hsd⟩ | ⟨u, _, hus⟩
    · exact h3 hsd
    · rcases List.append_eq_cons_iff.mp hus.symm with ⟨_, hsd2⟩ | ⟨u', _, hus2⟩
      · exact h2 hsd2
      · exact h1 (List.append_eq_nil.mp hus2.symm).2
  simp only [normpath]
  rw [if_neg hp, splitSlash_append_no_sep q s hs,
    foldl_normStep_concat _ _ _ _ ht1 ht2 ht3]
  exact suffix_assemble s _ _ _ ht1 hts

theorem normpath_abs (p : List Char) (h : isAbs p = true) :
    isAbs (normpath p) = true := by
  have hp : p ≠ [] := by
    intro he
    rw [he] at h
    simp [isAbs] at h
  simp only [normpath]
  rw [if_neg hp]
  simp only [h, if_true]
  by_cases h2 : p.take 2 = ['/', '/'] ∧ p.take 3 ≠ ['/', '/', '/'] <;>
    simp [h2, isAbs, List.replicate]

theorem pathJoin_abs (cwd p : List Char) (h : isAbs cwd = true) :
    isAbs (pathJoin cwd p) = true := by
  unfold pathJoin
  by_cases hp : isAbs p = true
  · rw [if_pos hp]
    exact hp
  · rw [if_neg hp]
    have hcwd : cwd.head? = some '/' := by simpa [isAbs] using h
    by_cases hc : cwd = [] ∨ cwd.getLast? = some '/'
    · rw [if_pos hc]
      simp [isAbs, List.head?_append, hcwd]
    · rw [if_neg hc]
      simp [isAbs, List.head?_append, hcwd]

theorem pathJoin_ml_suffix (f : List Char) : mlChars <:+ pathJoin f mlChars := by
  unfold pathJoin
  rw [if_neg (by decide : ¬ isAbs mlChars = true)]
  by_cases hc : f = [] ∨ f.getLast? = some '/'
  · rw [if_pos hc]
    exact List.suffix_append f mlChars
  · rw [if_neg hc]
    exact (List.suffix_cons '/' mlChars).trans (List.suffix_append f _)

theorem pathJoin_suffix_right (cwd p s : List Char) (h : s <:+ p) :
    s <:+ pathJoin cwd p := by
  unfold pathJoin
  by_cases h1 : isAbs p = true
  · rw [if_pos h1]
    exact h
  · rw [if_neg h1]
    by_cases h2 : cwd = [] ∨ cwd.getLast? = some '/'
    · rw [if_pos h2]
      exact h.trans (List.suffix_append cwd p)
    · rw [if_neg h2]
      exact h.trans ((List.suffix_cons '/' p).trans (List.suffix_append cwd _))

theorem abspath_suffix_ml (cwd p : List Char) (h : mlChars <:+ p) :
    mlChars <:+ abspath cwd p := by
  unfold abspath
  by_cases h1 : isAbs p = true
  · rw [if_pos h1]
    exact normpath_suffix _ _ (by decide) (by decide) (by decide) (by decide) h
  · rw [if_neg h1]
    exact normpath_suffix _ _ (by decide) (by decide) (by decide) (by decide)
      (pathJoin_suffix_right cwd p _ h)

theorem abspath_abs (cwd p : List Char) (h : isAbs cwd = true) :
    isAbs (abspath cwd p) = true := by
  unfold abspath
  by_cases h1 : isAbs p = true
  · rw [if_pos h1]
    exact normpath_abs p h1
  · rw [if_neg h1]
    exact normpath_abs _ (pathJoin_abs cwd p h)

/-- Counterexample to C10 as stated: the filename `metadata.yaml.bak`
contains `metadata.yaml`, so nothing is appended, and the stored filename
`/srv/metadata.yaml.bak` does **not** end in `metadata.yaml`. -/
theorem imgstore_filename_ce :
    imgstore_post_init_filename "/srv".toList "metadata.yaml.bak".toList =
        "/srv/metadata.yaml.bak".toList ∧
      mlChars.isSuffixOf
        (imgstore_post_init_filename "/srv".toList
          "metadata.yaml.bak".toList) = false := by
  decide

/-- C10 as amended: after `ImgStoreVideo.__attrs_post_init__`, the stored
filename is always an absolute path (for an absolute working directory);
when the given filename does not contain `metadata.yaml`, `metadata.yaml`
is appended as a path component before the path is made absolute and the
result ends in `metadata.yaml`; the result also ends in `metadata.yaml`
whenever the given filename itself does — but a name that merely contains
`metadata.yaml` without ending in it is kept as is and need not end in
`metadata.yaml`. -/
theorem imgstore_filename_invariant :
    (∀ cwd f : List Char, isAbs cwd = true →
        isAbs (imgstore_post_init_filename cwd f) = true)
    ∧ (∀ cwd f : List Char, containsML f = false →
        mlChars <:+ imgstore_post_init_filename cwd f)
    ∧ (∀ cwd f : List Char, mlChars <:+ f →
        mlChars <:+ imgstore_post_init_filename cwd f) := by
  refine ⟨?_, ?_, ?_⟩
  · intro cwd f hcwd
    unfold imgstore_post_init_filename
    split <;> exact abspath_abs _ _ hcwd
  · intro cwd f hml
    unfold imgstore_post_init_filename
    rw [if_pos (by simp [hml])]
    exact abspath_suffix_ml cwd _ (pathJoin_ml_suffix f)
  · intro cwd f hsuf
    unfold imgstore_post_init_filename
    by_cases hml : ¬ containsML f = true
    · rw [if_pos hml]
      exact abspath_suffix_ml _ _ (pathJoin_ml_suffix f)
    · rw [if_neg hml]
      exact abspath_suffix_ml _ _ hsuf

/-- Witness for the amended C10 at the concrete store directory `store`
with working directory `/srv`. -/
theorem imgstore_filename_invariant_witness :
    isAbs (imgstore_post_init_filename "/srv".toList "store".toList) = true ∧
      mlChars <:+ imgstore_post_init_filename "/srv".toList "store".toList :=
  ⟨imgstore_filename_invariant.1 _ _ (by decide),
    imgstore_filename_invariant.2.1 _ _ (by decide)⟩

end Sleap
